import Mathlib

/-!
Verification of the Movie Watchlist linked-list engine (src/Main.c).

The C program keeps two singly linked lists of `Movie` nodes (a library and a
watchlist).  We embed a linked list as a `List Movie`: the list order is the
chain order from the head pointer, and the end of the list is the node whose
`next` field is NULL.  Machine `double` durations are modelled as exact
rationals; `char[35]` strings are modelled as `String` with the 34-character
bound checked where the source checks it (`createMovieNode`).  Fallible C
functions return an `errno`-style status; we mirror them with the `CR` result
type below, whose `crash` constructor marks the executions in which the source
dereferences a NULL pointer (undefined behaviour).  Each definition follows the
control flow of the C function it is named after; deviations forced by the
functional setting are noted in the doc comments.
-/

/-- Result of a fallible C routine: `ok` carries the produced value, `err`
carries the `errno`-style status code, and `crash` marks a NULL-pointer
dereference (undefined behaviour) in the source. -/
inductive CR (α : Type) where
  | ok : α → CR α
  | err : Int → CR α
  | crash : CR α
  deriving DecidableEq

/-- Functorial action on the `ok` value, used to mirror list surgery performed
after a recursive traversal returns. -/
def CR.map {α β : Type} (f : α → β) : CR α → CR β
  | CR.ok a => CR.ok (f a)
  | CR.err e => CR.err e
  | CR.crash => CR.crash

/-- Linux errno value used by the source via `<errno.h>`. -/
def EINVAL : Int := 22

/-- Linux errno value used by the source via `<errno.h>`. -/
def ENOMEM : Int := 12

/-- Linux errno value used by the source via `<errno.h>`. -/
def ERANGE : Int := 34

/-- One movie record: `title`, `genre` (each at most 34 characters in the C
struct) and `duration` in hours.  The `next` pointer of the C struct is
represented by the position of the record in the embedding list. -/
structure Movie where
  title : String
  genre : String
  duration : ℚ
  deriving DecidableEq

/-- Embeds `createMovieNode` (Main.c:64).  Rejects over-long fields with
`ERANGE`; the `allocOk` flag models whether `calloc` succeeds (`ENOMEM`
otherwise).  The NULL-argument `EINVAL` path is not modelled because titles
and genres are always present here.  The suspicious conditions on lines
99-104 (`title != NULL || strlen(title) > 35`) are always true at that point,
so the fields are simply copied. -/
def createMovieNode (allocOk : Bool) (title genre : String) (duration : ℚ) : CR Movie :=
  if title.length > 34 then CR.err ERANGE
  else if genre.length > 34 then CR.err ERANGE
  else if allocOk then CR.ok ⟨title, genre, duration⟩
  else CR.err ENOMEM

/-- Embeds `getCount` (Main.c:230): walks the chain counting nodes; 0 for a
NULL list. -/
def getCount : List Movie → Int
  | [] => 0
  | _ :: rest => 1 + getCount rest

/-- Embeds `searchByTitle` (Main.c:634): first node (from the head) whose
title compares equal with `strcmp`; NULL when the list is NULL (the `EINVAL`
status) or no node matches. -/
def searchByTitle : List Movie → String → Option Movie
  | [], _ => none
  | x :: rest, t => if x.title = t then some x else searchByTitle rest t

/-- Embeds `computeDuration` (Main.c:592): sums `duration` over the chain.
When the list is NULL the source sets a local `status = EINVAL` but never
reads it again and does not set `errno`; the function still returns the
initial `duration` value 0.0, so the only observable behaviour is the
returned number. -/
def computeDuration : List Movie → ℚ
  | [] => 0
  | m :: rest => m.duration + computeDuration rest

/-- Embeds the loop of `getNodePosition` (Main.c:681).  The local `index` is
initialised to 0 and is never incremented anywhere in the source loop, which
is why it is threaded through unchanged here. -/
def getNodePositionLoop (itr : List Movie) (t : String) (index : Int) : Int :=
  match itr with
  | [] => -1
  | x :: rest =>
    if x.title = t then index
    else getNodePositionLoop rest t index

/-- Embeds `getNodePosition` (Main.c:681): `position` starts at -1 and is only
assigned when a title matches; a NULL list takes the `EINVAL` path and leaves
`position` at -1. -/
def getNodePosition (l : List Movie) (t : String) : Int :=
  match l with
  | [] => -1
  | _ :: _ => getNodePositionLoop l t 0

/-- Concrete movie used in counterexamples and witnesses. -/
def mvA : Movie := ⟨"A", "g", 1⟩

/-- Concrete movie used in counterexamples and witnesses. -/
def mvB : Movie := ⟨"B", "g", 1⟩

/-- Concrete movie used in counterexamples and witnesses. -/
def mvC : Movie := ⟨"C", "g", 1⟩

/-- Concrete movie sharing a title with `mvA`, used for the duplicate-title
counterexample. -/
def mvA2 : Movie := ⟨"A", "h", 2⟩

/-- The count computed by the traversal is the length of the embedded list. -/
theorem getCount_eq_length (l : List Movie) : getCount l = (l.length : Int) := by
  induction l with
  | nil => rfl
  | cons x rest ih => simp [getCount, ih]; omega

/-- The traversal sum equals the arithmetic sum of the duration fields. -/
theorem computeDuration_eq_sum (l : List Movie) :
    computeDuration l = (l.map (fun x => x.duration)).sum := by
  induction l with
  | nil => rfl
  | cons m rest ih => simp [computeDuration, ih]

/-- Claim C4 (code bug): the source promises the zero-based index of the first
matching title, but the loop never increments `index`, so any present title is
reported at position 0.  Here the title "B" sits at index 1 yet
`getNodePosition` returns 0. -/
theorem getNodePosition_returns_zero_eval :
    getNodePosition [mvA, mvB] "B" = 0 ∧ getNodePosition [mvA, mvB] "A" = 0 ∧
    getNodePosition [mvA, mvB] "Z" = -1 ∧ getNodePosition [] "B" = -1 := by
  decide

/-- Claim C7 (counterexample): on an empty list `computeDuration` returns 0;
the `InvalidArgument` status the claim describes is assigned to a dead local
variable and is never surfaced (the function returns a plain number and does
not touch `errno`). -/
theorem computeDuration_empty_returns_zero_cex :
    computeDuration [] = 0 := by
  rfl

/-- Claim C7 (amended): the computed duration is the arithmetic sum of the
duration fields, hence invariant under permutation of the list, and on an
empty list the function returns 0 rather than failing. -/
theorem computeDuration_sum_amended :
    (∀ l : List Movie, computeDuration l = (l.map (fun x => x.duration)).sum) ∧
    (∀ l l2 : List Movie, l.Perm l2 → computeDuration l = computeDuration l2) ∧
    computeDuration [] = 0 := by
  refine ⟨computeDuration_eq_sum, ?_, rfl⟩
  intro l l2 hp
  rw [computeDuration_eq_sum, computeDuration_eq_sum]
  exact (hp.map (fun x => x.duration)).sum_eq

/-- Claim C7 (witness): the amended theorem applied to a concrete permutation. -/
theorem computeDuration_sum_witness :
    computeDuration [mvA, mvA2] = computeDuration [mvA2, mvA] :=
  computeDuration_sum_amended.2.1 [mvA, mvA2] [mvA2, mvA] (by decide)

/-- Embeds the traversal of `insertMovie` (Main.c:257).  `itr` is the current
node, `count` the number of advances taken so far.  The source first tests
`count == position`; otherwise, if `itr->next == NULL` it stops with `ERANGE`,
and with `itr == NULL` (only possible when the list was empty) the check
`itr->next == NULL` dereferences a NULL pointer.  The `count == position` test
does not inspect `itr`, so distributing it over the three node shapes is
meaning-preserving.  Successful insertion splices `m` in front of `itr`;
the nodes already passed are re-prepended by `CR.map`. -/
def insertLoop (m : Movie) (p : Int) : List Movie → Int → CR (List Movie)
  | [], count => if count = p then CR.ok [m] else CR.crash
  | [x], count => if count = p then CR.ok [m, x] else CR.err ERANGE
  | x :: y :: rest, count =>
    if count = p then CR.ok (m :: x :: y :: rest)
    else CR.map (fun t => x :: t) (insertLoop m p (y :: rest) (count + 1))

/-- Embeds `insertMovie` (Main.c:257): `EINVAL` for a NULL movie argument,
otherwise the traversal starting at the head with `count = 0`. -/
def insertMovie (l : List Movie) (m : Option Movie) (p : Int) : CR (List Movie) :=
  match m with
  | none => CR.err EINVAL
  | some mv => insertLoop mv p l 0

/-- Embeds `appendMovie` (Main.c:319): `EINVAL` for a NULL movie; otherwise
the movie is linked after the last node (or becomes the head of an empty
list) and its own `next` is set to NULL, i.e. the result is `l ++ [mv]`. -/
def appendMovie (l : List Movie) (m : Option Movie) : CR (List Movie) :=
  match m with
  | none => CR.err EINVAL
  | some mv => CR.ok (l ++ [mv])

/-- Written from the amended wording of claim C1: insertion into an empty
list succeeds only at position 0 (a NULL dereference otherwise); insertion
into a non-empty list succeeds exactly for positions 0 .. Count-1, placing
the movie at the requested index, and every other position fails with
`ERANGE` (`OutOfRange`). -/
def insertSpec (l : List Movie) (m : Movie) (p : Int) : CR (List Movie) :=
  if l = [] then (if p = 0 then CR.ok [m] else CR.crash)
  else if 0 ≤ p ∧ p < (l.length : Int) then
    CR.ok (l.take p.toNat ++ m :: l.drop p.toNat)
  else CR.err ERANGE

/-- Successful traversal: when the remaining distance `d` to the requested
position is below the length of the remaining chain, the movie is spliced in
at distance `d`. -/
theorem insertLoop_ok (m : Movie) :
    ∀ (itr : List Movie) (c : Int) (d : Nat), d < itr.length →
      insertLoop m (c + (d : Int)) itr c = CR.ok (itr.take d ++ m :: itr.drop d) := by
  intro itr
  induction itr with
  | nil => intro c d hd; simp at hd
  | cons x rest ih =>
    intro c d hd
    cases d with
    | zero =>
      cases rest with
      | nil => simp [insertLoop]
      | cons y ys => simp [insertLoop]
    | succ e =>
      have hne : c ≠ c + ((e + 1 : Nat) : Int) := by push_cast; omega
      cases rest with
      | nil => simp at hd
      | cons y ys =>
        have harg : c + ((e + 1 : Nat) : Int) = (c + 1) + (e : Int) := by push_cast; ring
        have hd2 : e < (y :: ys).length := by simp at hd ⊢; omega
        simp only [insertLoop]
        rw [if_neg hne, harg, ih (c + 1) e hd2]
        simp [CR.map]

/-- Failing traversal: a non-empty chain whose length cannot reach the
requested position ends at the last node with `ERANGE`. -/
theorem insertLoop_err (m : Movie) :
    ∀ (itr : List Movie) (p c : Int), itr ≠ [] →
      (p < c ∨ c + (itr.length : Int) ≤ p) →
      insertLoop m p itr c = CR.err ERANGE := by
  intro itr
  induction itr with
  | nil => intro p c h _; exact absurd rfl h
  | cons x rest ih =>
    intro p c _ hrange
    have hlen : ((x :: rest).length : Int) = (rest.length : Int) + 1 := by
      simp
    have hne : c ≠ p := by
      rcases hrange with h | h
      · omega
      · rw [hlen] at h; omega
    cases rest with
    | nil => simp [insertLoop, if_neg hne]
    | cons y ys =>
      have hr2 : p < c + 1 ∨ (c + 1) + (((y :: ys).length) : Int) ≤ p := by
        rcases hrange with h | h
        · left; omega
        · right; rw [hlen] at h; omega
      simp only [insertLoop]
      rw [if_neg hne, ih p (c + 1) (by simp) hr2]
      rfl

/-- The traversal of `insertMovie` realises exactly the behaviour described
by `insertSpec`. -/
theorem insertMovie_eq_spec (l : List Movie) (m : Movie) (p : Int) :
    insertMovie l (some m) p = insertSpec l m p := by
  cases l with
  | nil =>
    by_cases h : p = 0
    · subst h; simp [insertMovie, insertLoop, insertSpec]
    · have h0 : ¬ ((0 : Int) = p) := fun hc => h hc.symm
      simp [insertMovie, insertLoop, insertSpec, h, h0]
  | cons x rest =>
    by_cases h : 0 ≤ p ∧ p < ((x :: rest).length : Int)
    · obtain ⟨h0, h1⟩ := h
      have hd : p.toNat < (x :: rest).length := by omega
      have hp : (0 : Int) + (p.toNat : Int) = p := by omega
      have hloop := insertLoop_ok m (x :: rest) 0 p.toNat hd
      rw [hp] at hloop
      simp only [insertMovie, insertSpec, if_neg (List.cons_ne_nil x rest), if_pos (⟨h0, h1⟩ :
        0 ≤ p ∧ p < ((x :: rest).length : Int))]
      exact hloop
    · have hr : p < 0 ∨ (0 : Int) + ((x :: rest).length : Int) ≤ p := by
        rcases not_and_or.mp h with h1 | h2
        · left; omega
        · right; simp only [zero_add]; omega
      simp only [insertMovie, insertSpec, if_neg (List.cons_ne_nil x rest), if_neg h]
      exact insertLoop_err m (x :: rest) p 0 (by simp) hr

/-- Claim C1 (counterexample): inserting at position Count into the singleton
list fails with `ERANGE` although the claim requires insertion at Count to
append, and inserting at position 1 > Count into the empty list dereferences
a NULL pointer instead of failing with `OutOfRange`. -/
theorem insertAt_count_fails_cex :
    getCount [mvA] = 1 ∧
    insertMovie [mvA] (some mvB) 1 = CR.err ERANGE ∧
    insertMovie [] (some mvB) 1 = CR.crash := by
  decide

/-- Claim C1 (amended): insertion of a non-NULL movie succeeds exactly at
position 0 of an empty list and at positions 0 .. Count-1 of a non-empty
list; positions outside that range fail with `OutOfRange` on a non-empty
list and dereference a NULL pointer on an empty list (`insertSpec` states
this case split).  On success the movie sits at the requested index and the
count grows by one. -/
theorem insertAt_amended_characterization (l : List Movie) (m : Movie) (p : Int) :
    insertMovie l (some m) p = insertSpec l m p ∧
    (0 ≤ p → p.toNat < l.length →
      insertMovie l (some m) p = CR.ok (l.take p.toNat ++ m :: l.drop p.toNat) ∧
      (l.take p.toNat ++ m :: l.drop p.toNat).length = l.length + 1 ∧
      (l.take p.toNat ++ m :: l.drop p.toNat)[p.toNat]? = some m) := by
  refine ⟨insertMovie_eq_spec l m p, ?_⟩
  intro h0 hlt
  have hnil : l ≠ [] := by
    intro hl; rw [hl] at hlt; simp at hlt
  have hcond : 0 ≤ p ∧ p < (l.length : Int) := ⟨h0, by omega⟩
  have htake : (l.take p.toNat).length = p.toNat := by
    rw [List.length_take]; omega
  refine ⟨?_, ?_, ?_⟩
  · rw [insertMovie_eq_spec l m p, insertSpec, if_neg hnil, if_pos hcond]
  · simp [List.length_take, List.length_drop]; omega
  · rw [List.getElem?_append_right (le_of_eq htake), htake]
    simp

/-- Claim C1 (witness): the amended characterization instantiated at a
two-element list and position 1. -/
theorem insertAt_amended_witness :
    insertMovie [mvA, mvB] (some mvC) 1 = insertSpec [mvA, mvB] mvC 1 ∧
    insertMovie [mvA, mvB] (some mvC) 1 = CR.ok [mvA, mvC, mvB] ∧
    ([mvA] ++ mvC :: [mvB]).length = 2 + 1 ∧
    ([mvA] ++ mvC :: [mvB])[1]? = some mvC := by
  have h := insertAt_amended_characterization [mvA, mvB] mvC 1
  have h2 := h.2 (by decide) (by decide)
  exact ⟨h.1, h2.1, h2.2.1, by simp⟩

/-- Claim C5 (counterexample): on the singleton list, `appendMovie` succeeds
while `insertMovie` at position Count = 1 fails with `ERANGE`, so the two are
not equivalent. -/
theorem append_insertAt_differ_cex :
    appendMovie [mvA] (some mvB) = CR.ok [mvA, mvB] ∧
    insertMovie [mvA] (some mvB) (getCount [mvA]) = CR.err ERANGE := by
  decide

/-- Claim C5 (amended): `Append` always succeeds on a non-NULL movie and
yields `list ++ [movie]`; it agrees with `InsertAt(list, movie, Count(list))`
only on the empty list, while on every non-empty list `InsertAt` at Count
fails with `OutOfRange`. -/
theorem append_insertAt_amended :
    (∀ m : Movie, appendMovie [] (some m) = insertMovie [] (some m) (getCount [])) ∧
    (∀ (l : List Movie) (m : Movie), l ≠ [] →
      appendMovie l (some m) = CR.ok (l ++ [m]) ∧
      insertMovie l (some m) (getCount l) = CR.err ERANGE) := by
  constructor
  · intro m; rfl
  · intro l m hl
    refine ⟨rfl, ?_⟩
    rw [insertMovie_eq_spec l m (getCount l), insertSpec, if_neg hl, if_neg ?_]
    rw [getCount_eq_length]
    omega

/-- Claim C5 (witness): the amended statement instantiated at a two-element
list. -/
theorem append_insertAt_amended_witness :
    appendMovie [mvA, mvB] (some mvC) = CR.ok [mvA, mvB, mvC] ∧
    insertMovie [mvA, mvB] (some mvC) (getCount [mvA, mvB]) = CR.err ERANGE := by
  have h := append_insertAt_amended.2 [mvA, mvB] mvC (by decide)
  exact ⟨by simpa using h.1, h.2⟩

/-- Embeds the non-head branch of `removeMovie` (Main.c:388-412).  The source
walks `prev`/`itr` comparing node addresses with the node to remove; in an
acyclic chain a node address is determined by its position, so the target is
identified here by its remaining distance.  On a hit the source splices the
node out and clears its `next` (the `[]` in the returned pair, which records
the chain still referenced by the removed node).  If `itr` runs past the last
node the status is `EINVAL`; if `itr` starts as NULL (singleton list) the
check `itr->next == NULL` dereferences a NULL pointer. -/
def removeLoopNonHead : List Movie → Nat → CR (List Movie × (Movie × List Movie))
  | [], _ => CR.crash
  | x :: rest, 0 => CR.ok (rest, (x, []))
  | [_], _ + 1 => CR.err EINVAL
  | x :: y :: rest, i + 1 =>
    CR.map (fun q => (x :: q.1, q.2)) (removeLoopNonHead (y :: rest) i)

/-- Embeds `removeMovie` (Main.c:365), with the target node named by its
zero-based position.  A NULL list is `EINVAL`.  When the target is the head,
the source only advances the head pointer: the returned node keeps its `next`
pointer, which still references the former second node (recorded as the
second component of the returned pair). -/
def removeMovieAt (l : List Movie) (i : Nat) : CR (List Movie × (Movie × List Movie)) :=
  match l with
  | [] => CR.err EINVAL
  | h :: rest =>
    if i = 0 then CR.ok (rest, (h, rest))
    else CR.map (fun q => (h :: q.1, q.2)) (removeLoopNonHead rest (i - 1))

/-- Characterization of the non-head removal walk on a valid position. -/
theorem removeLoopNonHead_spec :
    ∀ (rest : List Movie) (j : Nat) (h : j < rest.length),
      removeLoopNonHead rest j =
        CR.ok (rest.take j ++ rest.drop (j + 1), (rest.get ⟨j, h⟩, [])) := by
  intro rest
  induction rest with
  | nil => intro j h; simp at h
  | cons x rs ih =>
    intro j h
    cases j with
    | zero => simp [removeLoopNonHead]
    | succ k =>
      cases rs with
      | nil => simp at h
      | cons y ys =>
        have hk : k < (y :: ys).length := by simp at h ⊢; omega
        simp only [removeLoopNonHead, ih k hk]
        simp [CR.map]

/-- Full characterization of `removeMovie` on a position inside the list:
the node is unlinked, and its recorded `next` chain is the former tail when
the target was the head (the source does not clear it there) and empty
otherwise. -/
theorem removeMovieAt_spec (l : List Movie) (p : Nat) (h : p < l.length) :
    removeMovieAt l p =
      CR.ok (l.take p ++ l.drop (p + 1), (l.get ⟨p, h⟩, if p = 0 then l.tail else [])) := by
  cases l with
  | nil => simp at h
  | cons x rs =>
    cases p with
    | zero => simp [removeMovieAt]
    | succ k =>
      have hk : k < rs.length := by simp at h ⊢; omega
      simp only [removeMovieAt, if_neg (Nat.succ_ne_zero k), Nat.add_sub_cancel,
        removeLoopNonHead_spec rs k hk]
      simp [CR.map]

/-- Composition tested by claim C6: remove the node at position `p`, then
re-insert the removed movie at the same position. -/
def removeInsertRoundtrip (l : List Movie) (p : Nat) : CR (List Movie) :=
  match removeMovieAt l p with
  | CR.ok q => insertMovie q.1 (some q.2.1) (p : Int)
  | CR.err e => CR.err e
  | CR.crash => CR.crash

/-- Splitting a list at a valid position. -/
theorem take_get_drop_eq (l : List Movie) (p : Nat) (h : p < l.length) :
    l.take p ++ l.get ⟨p, h⟩ :: l.drop (p + 1) = l := by
  conv_rhs => rw [← List.take_append_drop p l]
  rw [List.drop_eq_getElem_cons h]
  simp [List.get_eq_getElem]

/-- Length after removing one valid position. -/
theorem take_drop_length (l : List Movie) (p : Nat) (h : p < l.length) :
    (l.take p ++ l.drop (p + 1)).length = l.length - 1 := by
  simp [List.length_take, List.length_drop]
  omega

/-- Claim C9 (counterexample): removing the head of a two-element list
returns the head with its successor link still referencing the former second
node, not cleared as the claim states. -/
theorem remove_head_next_not_cleared_cex :
    removeMovieAt [mvA, mvB] 0 = CR.ok ([mvB], (mvA, [mvB])) ∧
    ([mvB] : List Movie) ≠ [] := by
  decide

/-- Claim C9 (amended): `Remove` on a position inside the list unlinks
exactly that node and returns it; the returned node has its successor link
cleared when it was not the head, but a removed head keeps its link to the
former second node. -/
theorem remove_unlink_amended (l : List Movie) (p : Nat) (h : p < l.length) :
    removeMovieAt l p =
      CR.ok (l.take p ++ l.drop (p + 1), (l.get ⟨p, h⟩, if p = 0 then l.tail else [])) :=
  removeMovieAt_spec l p h

/-- Claim C9 (witness): the amended statement at a non-head position, where
the link of the removed node is indeed cleared. -/
theorem remove_unlink_witness :
    removeMovieAt [mvA, mvB] 1 = CR.ok ([mvA], (mvB, [])) := by
  have h := remove_unlink_amended [mvA, mvB] 1 (by decide)
  simpa using h

/-- Claim C6 (counterexample): removing the last element of a two-element
list and re-inserting it at its old position 1 fails with `ERANGE` instead of
restoring the original list. -/
theorem remove_reinsert_last_cex :
    removeInsertRoundtrip [mvA, mvB] 1 = CR.err ERANGE ∧
    CR.err ERANGE ≠ CR.ok [mvA, mvB] := by
  decide

/-- Claim C6 (amended): the remove-then-reinsert round trip restores the
original list for every valid position except the last position of a list
with at least two elements, where the re-insertion fails with `OutOfRange`
(a consequence of `insertMovie` not accepting position Count). -/
theorem remove_reinsert_roundtrip_amended (l : List Movie) (p : Nat) (h : p < l.length) :
    (p + 1 < l.length ∨ l.length = 1 → removeInsertRoundtrip l p = CR.ok l) ∧
    (2 ≤ l.length → p + 1 = l.length → removeInsertRoundtrip l p = CR.err ERANGE) := by
  have hspec := removeMovieAt_spec l p h
  have hlen2 := take_drop_length l p h
  constructor
  · intro hcase
    rcases hcase with hmid | hone
    · have hne : l.take p ++ l.drop (p + 1) ≠ [] := by
        intro hnil
        have := congrArg List.length hnil
        rw [hlen2] at this
        simp at this
        omega
      have hcond : 0 ≤ (p : Int) ∧ (p : Int) < ((l.take p ++ l.drop (p + 1)).length : Int) := by
        constructor
        · omega
        · rw [hlen2]; omega
      have htk : (l.take p).length = p := by rw [List.length_take]; omega
      simp only [removeInsertRoundtrip, hspec, insertMovie_eq_spec, insertSpec,
        if_neg hne, if_pos hcond, Int.toNat_natCast]
      rw [List.take_left' htk, List.drop_left' htk, take_get_drop_eq l p h]
    · obtain ⟨a, ha⟩ := List.length_eq_one.mp hone
      subst ha
      have hp : p = 0 := by simp at h; omega
      subst hp
      simp [removeInsertRoundtrip, removeMovieAt, insertMovie, insertLoop]
  · intro h2 hlast
    have hne : l.take p ++ l.drop (p + 1) ≠ [] := by
      intro hnil
      have := congrArg List.length hnil
      rw [hlen2] at this
      simp at this
      omega
    have hcond : ¬ (0 ≤ (p : Int) ∧ (p : Int) < ((l.take p ++ l.drop (p + 1)).length : Int)) := by
      rw [hlen2]
      intro hc
      omega
    simp only [removeInsertRoundtrip, hspec, insertMovie_eq_spec, insertSpec,
      if_neg hne, if_neg hcond]

/-- Claim C6 (witness): the amended round trip at position 0 of a
two-element list. -/
theorem remove_reinsert_roundtrip_witness :
    removeInsertRoundtrip [mvA, mvB] 0 = CR.ok [mvA, mvB] :=
  (remove_reinsert_roundtrip_amended [mvA, mvB] 0 (by decide)).1 (Or.inl (by decide))

/-- A search misses exactly when no node carries the title. -/
theorem searchByTitle_eq_none_iff (l : List Movie) (t : String) :
    searchByTitle l t = none ↔ ∀ x ∈ l, x.title ≠ t := by
  induction l with
  | nil => simp [searchByTitle]
  | cons x rest ih =>
    by_cases hx : x.title = t
    · simp [searchByTitle, hx]
    · simp [searchByTitle, hx, ih]

/-- Embeds the move-up loop of `handleWatchlistMenuOption` (Main.c:1271-1288)
after its first iteration.  At each step `itr` is the first element of the
argument; the source tests `itr->next->title`.  On a hit it rewires
`itr->next->next = itr` and `itr->next = temp` but never updates the node
before `itr`, so from the head the matching node simply disappears from the
chain: the reachable result is `itr :: rest` without the target.  When
`itr->next` is NULL the source dereferences a NULL pointer inside `strcmp`
(`none` here); this branch is unreachable when the searched title is present
beyond the head. -/
def moveUpAux : List Movie → String → Option (List Movie)
  | [], _ => none
  | [_], _ => none
  | x :: y :: rest, s =>
    if y.title = s then some (x :: rest)
    else Option.map (fun u => x :: u) (moveUpAux (y :: rest) s)

/-- Embeds the `MoveMovieUp` case of `handleWatchlistMenuOption`
(Main.c:1260-1297).  A missing title only prints a message; a matching head
is skipped by the `strcmp(itr->title, title) != 0` guard; a match at the
second node is the `itr == *watchlist` case, where the head pointer is also
updated and the swap is complete; deeper matches fall into `moveUpAux`. -/
def moveMovieUp (l : List Movie) (s : String) : Option (List Movie) :=
  match searchByTitle l s with
  | none => some l
  | some _ =>
    match l with
    | [] => some []
    | h :: rest =>
      if h.title = s then some (h :: rest)
      else
        match rest with
        | [] => none
        | t2 :: rest2 =>
          if t2.title = s then some (t2 :: h :: rest2)
          else Option.map (fun u => h :: u) (moveUpAux (t2 :: rest2) s)

/-- Embeds the move-down loop of `handleWatchlistMenuOption`
(Main.c:1306-1325) after its first iteration.  The loop runs while
`itr->next != NULL`; on a title match at `itr` the source rewires
`itr->next->next = itr` and `itr->next = temp` without updating the node
before `itr`, so the successor of the matching node disappears from the
chain reachable from the head.  Reaching the last node ends the loop with no
change. -/
def moveDownAux : List Movie → String → List Movie
  | [], _ => []
  | [x], _ => [x]
  | x :: y :: rest, s =>
    if x.title = s then x :: rest
    else x :: moveDownAux (y :: rest) s

/-- Embeds the `MoveMovieDown` case of `handleWatchlistMenuOption`
(Main.c:1299-1333).  A missing title only prints a message; on a singleton
list the loop body never runs; a matching head is the `itr == *watchlist`
case where the head pointer is updated and the swap is complete; deeper
matches fall into `moveDownAux`. -/
def moveMovieDown (l : List Movie) (s : String) : List Movie :=
  match searchByTitle l s with
  | none => l
  | some _ =>
    match l with
    | [] => []
    | [x] => [x]
    | x :: y :: rest =>
      if x.title = s then y :: x :: rest
      else x :: moveDownAux (y :: rest) s

/-- The move-down loop never changes a chain whose only match is the very
last node: the loop condition `itr->next != NULL` stops before testing it. -/
theorem moveDownAux_noop (m : Movie) (t : String) :
    ∀ l2 : List Movie, (∀ x ∈ l2, x.title ≠ t) →
      moveDownAux (l2 ++ [m]) t = l2 ++ [m] := by
  intro l2
  induction l2 with
  | nil => intro _; simp [moveDownAux]
  | cons b l3 ih =>
    intro hnm
    have hb : b.title ≠ t := hnm b (by simp)
    cases l3 with
    | nil => simp [moveDownAux, hb]
    | cons c l4 =>
      have hrest := ih (fun x hx => hnm x (by simp [hx]))
      simp only [List.cons_append] at hrest ⊢
      simp [moveDownAux, hb, hrest]

/-- Claim C3 (code bug): moving "C" up in the three-element watchlist
[A, B, C] does not swap it with "B"; the node "C" becomes unreachable and
the resulting chain is [A, B].  Moving "B" down likewise drops "C".  Only a
swap involving the head node works, because the element before the swapped
pair is never relinked. -/
theorem moveAdjacent_drops_node_eval :
    moveMovieUp [mvA, mvB, mvC] "C" = some [mvA, mvB] ∧
    moveMovieDown [mvA, mvB, mvC] "B" = [mvA, mvB] ∧
    moveMovieUp [mvA, mvB] "B" = some [mvB, mvA] := by
  decide

/-- Claim C8 (confirmed): moving up when the first element already matches
leaves the list unchanged, and moving down when the first match is the last
element leaves the list unchanged. -/
theorem moveAdjacent_boundary_noop :
    (∀ (h : Movie) (rest : List Movie) (t : String), h.title = t →
      moveMovieUp (h :: rest) t = some (h :: rest)) ∧
    (∀ (l : List Movie) (m : Movie) (t : String), m.title = t →
      (∀ x ∈ l, x.title ≠ t) →
      moveMovieDown (l ++ [m]) t = l ++ [m]) := by
  constructor
  · intro h rest t hm
    simp [moveMovieUp, searchByTitle, hm]
  · intro l m t hm hnm
    cases hv : searchByTitle (l ++ [m]) t with
    | none =>
      have := (searchByTitle_eq_none_iff (l ++ [m]) t).mp hv m (by simp)
      exact absurd hm this
    | some v =>
      cases l with
      | nil =>
        simp only [List.nil_append]
        unfold moveMovieDown
        split <;> rfl
      | cons b l3 =>
        have hb : b.title ≠ t := hnm b (by simp)
        cases l3 with
        | nil =>
          simp only [List.cons_append, List.nil_append]
          unfold moveMovieDown
          split
          · rfl
          · simp [moveDownAux, hb]
        | cons c l4 =>
          have hrest := moveDownAux_noop m t (c :: l4) (fun x hx => hnm x (by simp [hx]))
          simp only [List.cons_append] at hv hrest ⊢
          simp [moveMovieDown, hv, hb, hrest]

/-- Claim C8 (witness): both boundary no-ops at concrete two-element lists. -/
theorem moveAdjacent_boundary_noop_witness :
    moveMovieUp [mvA, mvB] "A" = some [mvA, mvB] ∧
    moveMovieDown [mvA, mvB] "B" = [mvA, mvB] := by
  constructor
  · exact moveAdjacent_boundary_noop.1 mvA [mvB] "A" (by decide)
  · exact moveAdjacent_boundary_noop.2 [mvA] mvB "B" (by decide) (by decide)

/-- Menu options of `AddMovieMenuOption` (Main.c:724). -/
inductive AddMovieMenuOption where
  | AddToBeginning
  | AddToEnd
  | InsertWithin
  deriving DecidableEq

/-- Net effect of `removeMovie(list, searchByTitle(list, t))`: the two call
sites of `removeMovie` in the transfer flows pass the node returned by a
title search, i.e. the first node whose title matches, and pointer-identity
removal of that node deletes exactly the first occurrence of the title.
When the title is absent the search returns NULL, no removal is attempted,
and the chain is unchanged, matching the identity case here. -/
def removeFirstTitle : List Movie → String → List Movie
  | [], _ => []
  | x :: rest, t => if x.title = t then rest else x :: removeFirstTitle rest t

/-- Embeds `handleAddMovieMenuOption` (Main.c:765), the library-to-watchlist
transfer.  `movie` is the library node found by the caller via
`searchByTitle` (the first match of its title).  The source builds a copy
with `createMovieNode` (`allocOk` models the `calloc` outcome), inserts it
into the watchlist, and then calls `removeMovie(library, movie)` without
inspecting the insertion status, so the removal happens even when the
insertion failed.  For `InsertWithin` the prompt yields `position` between 1
and Count, and the insertion position is `position - 1` (with an empty
watchlist the prompt loop of the source never terminates; that case does not
arise here). -/
def handleAddMovieMenuOption (allocOk : Bool) (opt : AddMovieMenuOption) (movie : Movie)
    (library watchlist : List Movie) (position : Int) : List Movie × List Movie :=
  let newMovie : Option Movie :=
    match createMovieNode allocOk movie.title movie.genre movie.duration with
    | CR.ok n => some n
    | _ => none
  match opt with
  | AddMovieMenuOption.AddToBeginning =>
    let w := match insertMovie watchlist newMovie 0 with
      | CR.ok w2 => w2
      | _ => watchlist
    (removeFirstTitle library movie.title, w)
  | AddMovieMenuOption.AddToEnd =>
    let w := match appendMovie watchlist newMovie with
      | CR.ok w2 => w2
      | _ => watchlist
    (removeFirstTitle library movie.title, w)
  | AddMovieMenuOption.InsertWithin =>
    let w := match insertMovie watchlist newMovie (position - 1) with
      | CR.ok w2 => w2
      | _ => watchlist
    (removeFirstTitle library movie.title, w)

/-- Embeds the `RemoveMovie` case of `handleWatchlistMenuOption`
(Main.c:1335-1354), the watchlist-to-library transfer.  Note the order in
the source: the original is removed from the watchlist BEFORE the copy is
appended to the library, and the append status is ignored. -/
def handleWatchlistRemoveMovie (allocOk : Bool) (t : String)
    (library watchlist : List Movie) : List Movie × List Movie :=
  match searchByTitle watchlist t with
  | none => (library, watchlist)
  | some temp =>
    let newMovie : Option Movie :=
      match createMovieNode allocOk temp.title temp.genre temp.duration with
      | CR.ok n => some n
      | _ => none
    let w := removeFirstTitle watchlist temp.title
    let lib := match appendMovie library newMovie with
      | CR.ok l2 => l2
      | _ => library
    (lib, w)

/-- Claim C2 (code bug): when allocation of the copy fails, insertion into
the destination fails (`insertMovie` gets a NULL movie and returns
`EINVAL`), yet the source still removes the original from the source list,
so the movie is in neither collection afterwards.  Forward direction: the
library [A] loses "A" while the watchlist stays empty.  Reverse direction:
the watchlist [A] loses "A" before the failed append, with the same loss. -/
theorem transfer_failure_not_atomic_eval :
    handleAddMovieMenuOption false AddMovieMenuOption.AddToBeginning mvA [mvA] [] 0
      = ([], []) ∧
    handleWatchlistRemoveMovie false "A" [] [mvA] = ([], []) := by
  decide

/-- Embeds one iteration of the load loop of `loadMovieWatchlist`
(Main.c:1142-1171) on an already-decoded record: `appendMovie` adds the
record to the watchlist, then `searchByTitle` looks its title up in the
library and, on a hit, `removeMovie` unlinks that first matching node. -/
def loadStep (st : List Movie × List Movie) (m : Movie) : List Movie × List Movie :=
  match searchByTitle st.2 m.title with
  | some _ => (st.1 ++ [m], removeFirstTitle st.2 m.title)
  | none => (st.1 ++ [m], st.2)

/-- Embeds `loadMovieWatchlist` (Main.c:1114) on the sequence of
successfully decoded records: the watchlist starts empty and the library is
updated record by record.  File parsing itself is the excluded I/O
collaborator. -/
def loadMovieWatchlist (records : List Movie) (library : List Movie) :
    List Movie × List Movie :=
  List.foldl loadStep ([], library) records

/-- Removing the first title occurrence only drops elements. -/
theorem removeFirstTitle_sublist (l : List Movie) (t : String) :
    List.Sublist (removeFirstTitle l t) l := by
  induction l with
  | nil => exact List.Sublist.refl []
  | cons x rest ih =>
    by_cases hx : x.title = t
    · simp only [removeFirstTitle, if_pos hx]
      exact List.Sublist.cons x (List.Sublist.refl rest)
    · simp only [removeFirstTitle, if_neg hx]
      exact List.Sublist.cons₂ x ih

/-- One load step only removes elements from the library component. -/
theorem loadStep_snd_sublist (st : List Movie × List Movie) (m : Movie) :
    List.Sublist (loadStep st m).2 st.2 := by
  cases hs : searchByTitle st.2 m.title with
  | none => simp [loadStep, hs]
  | some v =>
    simp only [loadStep, hs]
    exact removeFirstTitle_sublist st.2 m.title

/-- The whole load only removes elements from the library component. -/
theorem load_fold_snd_sublist :
    ∀ (records : List Movie) (st : List Movie × List Movie),
      List.Sublist (List.foldl loadStep st records).2 st.2 := by
  intro records
  induction records with
  | nil => intro st; exact List.Sublist.refl _
  | cons r rs ih =>
    intro st
    rw [List.foldl_cons]
    exact (ih (loadStep st r)).trans (loadStep_snd_sublist st r)

/-- One load step appends the record to the watchlist component. -/
theorem loadStep_fst (st : List Movie × List Movie) (m : Movie) :
    (loadStep st m).1 = st.1 ++ [m] := by
  cases hs : searchByTitle st.2 m.title <;> simp [loadStep, hs]

/-- The watchlist component only grows during the load. -/
theorem load_fold_fst_mem :
    ∀ (records : List Movie) (st : List Movie × List Movie) (x : Movie),
      x ∈ st.1 → x ∈ (List.foldl loadStep st records).1 := by
  intro records
  induction records with
  | nil => intro st x hx; exact hx
  | cons r rs ih =>
    intro st x hx
    rw [List.foldl_cons]
    exact ih (loadStep st r) x (by rw [loadStep_fst]; exact List.mem_append_left _ hx)

/-- With pairwise distinct titles, removing the first occurrence of a title
removes the title entirely. -/
theorem removeFirstTitle_not_mem (l : List Movie) (t : String) :
    (l.map (fun x => x.title)).Nodup →
    t ∉ (removeFirstTitle l t).map (fun x => x.title) := by
  induction l with
  | nil => intro _; simp [removeFirstTitle]
  | cons x rest ih =>
    intro hnd
    rw [List.map_cons, List.nodup_cons] at hnd
    by_cases hx : x.title = t
    · simp only [removeFirstTitle, if_pos hx]
      rw [← hx]
      exact hnd.1
    · simp only [removeFirstTitle, if_neg hx, List.map_cons, List.mem_cons]
      rintro (h1 | h2)
      · exact hx h1.symm
      · exact ih hnd.2 h2

/-- Invariant behind claim C10: provided the current library has pairwise
distinct titles, every processed record ends up in the watchlist and its
title is absent from the final library. -/
theorem load_aux :
    ∀ (records : List Movie) (st : List Movie × List Movie),
      (st.2.map (fun x => x.title)).Nodup →
      ∀ m ∈ records,
        m.title ∈ ((List.foldl loadStep st records).1.map (fun x => x.title)) ∧
        m.title ∉ ((List.foldl loadStep st records).2.map (fun x => x.title)) := by
  intro records
  induction records with
  | nil => intro st _ m hm; simp at hm
  | cons r rs ih =>
    intro st hnodup m hm
    have hnodup2 : ((loadStep st r).2.map (fun x => x.title)).Nodup :=
      List.Nodup.sublist ((loadStep_snd_sublist st r).map (fun x => x.title)) hnodup
    rw [List.foldl_cons]
    rcases List.mem_cons.mp hm with hm1 | hm2
    · subst hm1
      constructor
      · have hin : m ∈ (loadStep st m).1 := by
          rw [loadStep_fst]
          exact List.mem_append_right _ (by simp)
        exact List.mem_map_of_mem (fun x => x.title)
          (load_fold_fst_mem rs (loadStep st m) m hin)
      · have hnot : m.title ∉ ((loadStep st m).2.map (fun x => x.title)) := by
          cases hs : searchByTitle st.2 m.title with
          | none =>
            have hall := (searchByTitle_eq_none_iff st.2 m.title).mp hs
            simp only [loadStep, hs, List.mem_map]
            rintro ⟨x, hx, hxt⟩
            exact hall x hx hxt
          | some v =>
            simp only [loadStep, hs]
            exact removeFirstTitle_not_mem st.2 m.title hnodup
        intro hmem
        exact hnot
          (((load_fold_snd_sublist rs (loadStep st m)).map (fun x => x.title)).subset hmem)
    · exact ih (loadStep st r) hnodup2 m hm2

/-- Claim C10 (counterexample): the library holds two movies titled "A"; the
load removes only the first match, so after loading a record titled "A" the
title is present in both the watchlist and the library. -/
theorem load_duplicate_title_cex :
    "A" ∈ ((loadMovieWatchlist [mvA] [mvA, mvA2]).1.map (fun x => x.title)) ∧
    "A" ∈ ((loadMovieWatchlist [mvA] [mvA, mvA2]).2.map (fun x => x.title)) := by
  decide

/-- Claim C10 (amended): each decoded record is appended to the watchlist
and the first matching library element (if any) is removed; provided the
library titles are pairwise distinct, every loaded title is afterwards
present in the watchlist and absent from the library, so no loaded title
remains in both collections.  With duplicate library titles the invariant
can fail. -/
theorem load_library_removal_amended (records lib : List Movie)
    (hnodup : (lib.map (fun x => x.title)).Nodup) :
    ∀ m ∈ records,
      m.title ∈ ((loadMovieWatchlist records lib).1.map (fun x => x.title)) ∧
      m.title ∉ ((loadMovieWatchlist records lib).2.map (fun x => x.title)) :=
  load_aux records ([], lib) hnodup

/-- Claim C10 (witness): loading the record "A" against the singleton
library [A] puts "A" in the watchlist and leaves the library without it. -/
theorem load_library_removal_witness :
    mvA.title ∈ ((loadMovieWatchlist [mvA] [mvA]).1.map (fun x => x.title)) ∧
    mvA.title ∉ ((loadMovieWatchlist [mvA] [mvA]).2.map (fun x => x.title)) :=
  load_library_removal_amended [mvA] [mvA] (by decide) mvA (by decide)
